import Mathlib

/-!
Verification of the message-passing GNN core in
`GNN_PDE/convdiff/pdegs/models.py`.

Shallow embedding conventions:
* scalars live in an arbitrary field `R`; the floating-point square root
  (used by `Tensor.norm`) and `torch.atan2` are opaque parameters
  `sq : R → R` and `at2 : R → R → R`;
* a tensor row is a `List R`, a 2-D tensor a `List (List R)` (one inner
  list per node or per edge);
* `edge_index` is a list of columns `(first_row, second_row)`; with
  `flow="target_to_source"` the *first*-listed endpoint of an edge is the
  `_i` (aggregating) endpoint and the *second*-listed endpoint is the `_j`
  (neighbor) endpoint;
* the `raise NameError()` branch of `EdgeConvBase.message` is modeled with
  `Except ConvError`;
* all instantiations in the source use `aggr='mean'`, which is the scatter
  reduction modeled here (sum of incident messages divided by their count,
  zero rows for nodes with no incident edge, as in scatter-mean).
-/

section ModelsEmbedding

variable {R : Type} [Field R]

/-- An injected message/aggregation network: an `nn.Module` mapping a row to
a row of a fixed output width `outW` (the width is an architectural constant
of the network, used by the scatter reduction to shape its output). -/
structure Net (R : Type) where
  f : List R → List R
  outW : Nat
  hW : ∀ v, (f v).length = outW

/-- Elementwise subtraction of two rows (`a - b` on same-shape tensors). -/
def vsub (u v : List R) : List R := List.zipWith (fun a b => a - b) u v

/-- Row 2-norm `t.norm(dim=1)`: square root of the sum of squares. -/
def vnorm (sq : R → R) (v : List R) : R := sq ((v.map fun a => a * a).sum)

/-- The error raised by `EdgeConvBase.message` on an unrecognized
`neighbor_loc` (`raise NameError()`; the spec's InvalidConfiguration). -/
inductive ConvError where
  | nameError
deriving DecidableEq

/-- Constructor state shared by `EdgeConvBase` and its subclasses: the two
injected networks, the neighbor-encoding mode and the self-value flag
(`aggr` is `'mean'` in every instantiation and `flow` is fixed to
`"target_to_source"`; both are baked into `propagateE`). -/
structure ConvCfg (R : Type) where
  msg_net : Net R
  aggr_net : List R → List R
  neighbor_loc : String
  self_val : Bool

/-- The neighbor-encoding modes `EdgeConvBase.message` recognizes. -/
def validModes : List String := [("position"), ("distance"), ("radial")]

/-- A node-feature input tensor of dimension 1 or 2. -/
inductive FeatTensor (R : Type) where
  | one : List R → FeatTensor R
  | two : List (List R) → FeatTensor R

/-- The guard `x = x.unsqueeze(-1) if x.dim() == 1 else x` at the top of
`forward`: a flat sequence becomes an N×1 tensor, dim-2 input is unchanged. -/
def reshape1d : FeatTensor R → List (List R)
  | .one v => v.map fun a => [a]
  | .two m => m

/-- Per-edge message computation over the whole edge list, each message
tagged with its aggregation index `e.1` (the first-listed endpoint, per
`flow="target_to_source"`); a raised error aborts the whole propagation. -/
def collectMsgs (msgf : Nat × Nat → Except ConvError (List R)) :
    List (Nat × Nat) → Except ConvError (List (Nat × List R))
  | [] => .ok []
  | e :: es =>
    (msgf e).bind fun m => (collectMsgs msgf es).map fun rest => (e.1, m) :: rest

/-- Scatter-mean (`aggr='mean'`) of the tagged width-`W` messages at node
`n`: componentwise sum of the messages whose tag is `n`, divided by their
count clamped to 1 — so a node with no incident edge gets the zero row. -/
def meanAt (W : Nat) (pairs : List (Nat × List R)) (n : Nat) : List R :=
  let sel := pairs.filterMap fun p => if p.1 = n then some p.2 else none
  (List.range W).map fun k =>
    (sel.map fun m => m.getD k 0).sum / ((max sel.length 1 : Nat) : R)

/-- `MessagePassing.propagate`: one message per edge, scatter-mean into `N`
rows of width `W`, then the per-node update. -/
def propagateE (W N : Nat) (msgf : Nat × Nat → Except ConvError (List R))
    (updf : Nat → List R → List R) (edges : List (Nat × Nat)) :
    Except ConvError (List (List R)) :=
  (collectMsgs msgf edges).map fun pairs =>
    (List.range N).map fun n => updf n (meanAt W pairs n)

namespace EdgeConvBase

/-- The concatenated `inputs` tensor built per edge by
`EdgeConvBase.message`, before the message network is applied; the final
`else` branch is `raise NameError()`.  (`pos_vec[:, 1]` / `pos_vec[:, 0]`
assume 2-D positions; components are read with `getD`.) -/
def msgInput (sq : R → R) (at2 : R → R → R) (neighbor_loc : String)
    (x_i x_j pos_i pos_j : List R) : Except ConvError (List R) :=
  if neighbor_loc = "distance" then
    .ok (x_i ++ x_j ++ [vnorm sq (vsub pos_j pos_i)])
  else if neighbor_loc = "position" then
    .ok (x_i ++ x_j ++ vsub pos_j pos_i)
  else if neighbor_loc = "radial" then
    let pos_vec := vsub pos_j pos_i
    .ok (x_i ++ x_j ++ [vnorm sq pos_vec, at2 (pos_vec.getD 1 0) (pos_vec.getD 0 0)])
  else
    .error .nameError

/-- `EdgeConvBase.message`: build `inputs`, then `return self.msg_net(inputs)`. -/
def message (sq : R → R) (at2 : R → R → R) (cfg : ConvCfg R)
    (x_i x_j pos_i pos_j : List R) : Except ConvError (List R) :=
  (msgInput sq at2 cfg.neighbor_loc x_i x_j pos_i pos_j).map cfg.msg_net.f

/-- The `inp` tensor built per node by `EdgeConvBase.update`:
`torch.cat((x, aggr_out))` when `self_val`, else `aggr_out` alone. -/
def updateInput (self_val : Bool) (aggr_out x : List R) : List R :=
  if self_val then x ++ aggr_out else aggr_out

/-- `EdgeConvBase.update`: `return self.aggr_net(inp)`. -/
def update (cfg : ConvCfg R) (aggr_out x : List R) : List R :=
  cfg.aggr_net (updateInput cfg.self_val aggr_out x)

/-- `EdgeConvBase.forward`: reshape a flat feature input to N×1, then
`self.propagate(edge_index, x=x, pos=pos)`. -/
def forward (sq : R → R) (at2 : R → R → R) (cfg : ConvCfg R)
    (x : FeatTensor R) (edges : List (Nat × Nat)) (pos : List (List R)) :
    Except ConvError (List (List R)) :=
  let X := reshape1d x
  propagateE cfg.msg_net.outW X.length
    (fun e => message sq at2 cfg (X.getD e.1 []) (X.getD e.2 [])
      (pos.getD e.1 []) (pos.getD e.2 []))
    (fun n a => update cfg a (X.getD n [])) edges

end EdgeConvBase

namespace EdgeConvGeom

/-- `distances = (pos_j-pos_i).norm(dim=1)` in `EdgeConvGeom.message`. -/
def distances (sq : R → R) (pos_i pos_j : List R) : R :=
  vnorm sq (vsub pos_j pos_i)

/-- `positions = (pos_j - pos_i) / distances` in `EdgeConvGeom.message`:
the unit-direction normalization, with no guard on the denominator. -/
def positions (sq : R → R) (pos_i pos_j : List R) : List R :=
  (vsub pos_j pos_i).map fun a => a / distances sq pos_i pos_j

/-- `EdgeConvGeom.message`: `inputs = torch.cat([distances, positions])`,
then `self.msg_net(inputs)`.  This override takes no feature arguments and
never consults `neighbor_loc`, so it cannot raise. -/
def message (sq : R → R) (cfg : ConvCfg R) (pos_i pos_j : List R) : List R :=
  cfg.msg_net.f (distances sq pos_i pos_j :: positions sq pos_i pos_j)

/-- `EdgeConvGeom.forward`: `self.propagate(edge_index, pos=pos)`; the node
count comes from `pos`, and the overriding update applies `aggr_net` to the
aggregate alone. -/
def forward (sq : R → R) (cfg : ConvCfg R) (edges : List (Nat × Nat))
    (pos : List (List R)) : Except ConvError (List (List R)) :=
  propagateE cfg.msg_net.outW pos.length
    (fun e => .ok (message sq cfg (pos.getD e.1 []) (pos.getD e.2 [])))
    (fun _ a => cfg.aggr_net a) edges

end EdgeConvGeom

namespace EdgeConvWithCtx

/-- `distances = (pos_j-pos_i).norm(dim=1)` in `EdgeConvWithCtx.message`. -/
def distances (sq : R → R) (pos_i pos_j : List R) : R :=
  vnorm sq (vsub pos_j pos_i)

/-- `positions = (pos_j - pos_i) / distances` in `EdgeConvWithCtx.message`:
the same unguarded unit-direction normalization as in `EdgeConvGeom`. -/
def positions (sq : R → R) (pos_i pos_j : List R) : List R :=
  (vsub pos_j pos_i).map fun a => a / distances sq pos_i pos_j

/-- `EdgeConvWithCtx.message`:
`inputs = torch.cat([x_i, x_j-x_i, distances, positions, ctx_i])`, then
`self.msg_net(inputs)`; `ctx_i` is the context row of the first-listed
(aggregating) endpoint. -/
def message (sq : R → R) (cfg : ConvCfg R)
    (x_i x_j pos_i pos_j ctx_i : List R) : List R :=
  cfg.msg_net.f (x_i ++ vsub x_j x_i
    ++ distances sq pos_i pos_j :: positions sq pos_i pos_j ++ ctx_i)

/-- `EdgeConvWithCtx.update`: `inputs = torch.cat([aggr_out, ctx])`, then
`self.aggr_net(inputs)`; the `x` and `pos` arguments are received but never
read, and the inherited `self_val` flag is never consulted. -/
def update (cfg : ConvCfg R) (aggr_out x pos ctx : List R) : List R :=
  cfg.aggr_net (aggr_out ++ ctx)

/-- `EdgeConvWithCtx.forward`: reshape a flat feature input to N×1, then
`self.propagate(edge_index, x=x, pos=pos, ctx=ctx)`. -/
def forward (sq : R → R) (cfg : ConvCfg R) (x : FeatTensor R)
    (edges : List (Nat × Nat)) (pos ctx : List (List R)) :
    Except ConvError (List (List R)) :=
  let X := reshape1d x
  propagateE cfg.msg_net.outW X.length
    (fun e => .ok (message sq cfg (X.getD e.1 []) (X.getD e.2 [])
      (pos.getD e.1 []) (pos.getD e.2 []) (ctx.getD e.1 [])))
    (fun n a => update cfg a (X.getD n []) (pos.getD n []) (ctx.getD n [])) edges

end EdgeConvWithCtx

/-- `MPNNModel.forward`: one `EdgeConvBase` layer built with `aggr='mean'`,
`neighbor_loc="position"`, `self_val=True` (the `edge_index.long()` cast is
the identity here since edges are already natural numbers). -/
def MPNNModel.forward (sq : R → R) (at2 : R → R → R)
    (msg_net : Net R) (aggr_net : List R → List R)
    (x : FeatTensor R) (edges : List (Nat × Nat)) (pos : List (List R)) :
    Except ConvError (List (List R)) :=
  EdgeConvBase.forward sq at2 ⟨msg_net, aggr_net, ("position"), true⟩ x edges pos

/-- `M3Model.forward`: `context = self.L1(edge_index.long(), pos)` then
`return self.L2(x, edge_index.long(), pos, context)`, where `L1` is an
`EdgeConvGeom` and `L2` an `EdgeConvWithCtx`, both with `aggr='mean'` and
the constructor defaults `neighbor_loc="position"`, `self_val=True`. -/
def M3Model.forward (sq : R → R)
    (L1_msg_net : Net R) (L1_aggr_net : List R → List R)
    (L2_msg_net : Net R) (L2_aggr_net : List R → List R)
    (x : FeatTensor R) (edges : List (Nat × Nat)) (pos : List (List R)) :
    Except ConvError (List (List R)) :=
  (EdgeConvGeom.forward sq ⟨L1_msg_net, L1_aggr_net, ("position"), true⟩ edges pos).bind
    fun context =>
      EdgeConvWithCtx.forward sq ⟨L2_msg_net, L2_aggr_net, ("position"), true⟩
        x edges pos context

end ModelsEmbedding

/-! ### Basic lemmas about the embedded operations -/

section Lemmas

variable {R : Type} [Field R]

theorem vsub_self_row (p : List R) : vsub p p = List.replicate p.length 0 := by
  induction p with
  | nil => rfl
  | cons a t ih =>
    simp only [vsub, List.zipWith, List.length_cons, List.replicate, sub_self] at ih ⊢
    exact congrArg (fun l => 0 :: l) ih

theorem vnorm_vsub_self (sq : R → R) (p : List R) : vnorm sq (vsub p p) = sq 0 := by
  rw [vsub_self_row]
  simp [vnorm]

theorem msgInput_distance (sq : R → R) (at2 : R → R → R) (x_i x_j pos_i pos_j : List R) :
    EdgeConvBase.msgInput sq at2 ("distance") x_i x_j pos_i pos_j
      = .ok (x_i ++ x_j ++ [vnorm sq (vsub pos_j pos_i)]) := by
  simp [EdgeConvBase.msgInput]

theorem msgInput_position (sq : R → R) (at2 : R → R → R) (x_i x_j pos_i pos_j : List R) :
    EdgeConvBase.msgInput sq at2 ("position") x_i x_j pos_i pos_j
      = .ok (x_i ++ x_j ++ vsub pos_j pos_i) := by
  simp [EdgeConvBase.msgInput]

theorem msgInput_radial (sq : R → R) (at2 : R → R → R) (x_i x_j pos_i pos_j : List R) :
    EdgeConvBase.msgInput sq at2 ("radial") x_i x_j pos_i pos_j
      = .ok (x_i ++ x_j ++ [vnorm sq (vsub pos_j pos_i),
          at2 ((vsub pos_j pos_i).getD 1 0) ((vsub pos_j pos_i).getD 0 0)]) := by
  simp [EdgeConvBase.msgInput]

theorem msgInput_invalid (sq : R → R) (at2 : R → R → R) (mode : String)
    (x_i x_j pos_i pos_j : List R) (hmode : mode ∉ validModes) :
    EdgeConvBase.msgInput sq at2 mode x_i x_j pos_i pos_j = .error .nameError := by
  simp only [validModes, List.mem_cons, List.not_mem_nil, or_false, not_or] at hmode
  obtain ⟨h1, h2, h3⟩ := hmode
  rw [EdgeConvBase.msgInput, if_neg h2, if_neg h1, if_neg h3]

theorem collectMsgs_ok (msgf : Nat × Nat → Except ConvError (List R))
    (g : Nat × Nat → List R) (es : List (Nat × Nat))
    (h : ∀ e, msgf e = .ok (g e)) :
    collectMsgs msgf es = .ok (es.map fun e => (e.1, g e)) := by
  induction es with
  | nil => rfl
  | cons e t ih =>
    simp [collectMsgs, h e, ih, Except.bind, Except.map]

theorem collectMsgs_error_head (msgf : Nat × Nat → Except ConvError (List R))
    (e : Nat × Nat) (es : List (Nat × Nat)) (err : ConvError)
    (h : msgf e = .error err) :
    collectMsgs msgf (e :: es) = .error err := by
  simp [collectMsgs, h, Except.bind]

theorem meanAt_perm (W : Nat) (p1 p2 : List (Nat × List R)) (hp : p1.Perm p2) (n : Nat) :
    meanAt W p1 n = meanAt W p2 n := by
  have hsel : (p1.filterMap fun p => if p.1 = n then some p.2 else none).Perm
      (p2.filterMap fun p => if p.1 = n then some p.2 else none) := hp.filterMap _
  simp only [meanAt]
  refine List.map_congr_left fun k _ => ?_
  rw [(hsel.map fun m => m.getD k 0).sum_eq, hsel.length_eq]

theorem propagateE_ok (W N : Nat) (msgf : Nat × Nat → Except ConvError (List R))
    (g : Nat × Nat → List R) (updf : Nat → List R → List R)
    (edges : List (Nat × Nat)) (h : ∀ e, msgf e = .ok (g e)) :
    propagateE W N msgf updf edges
      = .ok ((List.range N).map fun n =>
          updf n (meanAt W (edges.map fun e => (e.1, g e)) n)) := by
  rw [propagateE, collectMsgs_ok msgf g edges h]
  rfl

theorem propagateE_perm (W N : Nat) (msgf : Nat × Nat → Except ConvError (List R))
    (g : Nat × Nat → List R) (updf : Nat → List R → List R)
    (edges edges' : List (Nat × Nat))
    (h : ∀ e, msgf e = .ok (g e)) (hperm : edges.Perm edges') :
    propagateE W N msgf updf edges' = propagateE W N msgf updf edges := by
  rw [propagateE_ok W N msgf g updf edges h, propagateE_ok W N msgf g updf edges' h]
  refine congrArg Except.ok (List.map_congr_left fun n _ => ?_)
  exact congrArg (updf n) (meanAt_perm W _ _ ((hperm.map fun e => (e.1, g e)).symm) n)

theorem base_forward_eq (sq : R → R) (at2 : R → R → R) (cfg : ConvCfg R)
    (x : FeatTensor R) (edges : List (Nat × Nat)) (pos : List (List R)) :
    EdgeConvBase.forward sq at2 cfg x edges pos
      = propagateE cfg.msg_net.outW (reshape1d x).length
          (fun e => EdgeConvBase.message sq at2 cfg
            ((reshape1d x).getD e.1 []) ((reshape1d x).getD e.2 [])
            (pos.getD e.1 []) (pos.getD e.2 []))
          (fun n a => EdgeConvBase.update cfg a ((reshape1d x).getD n [])) edges := rfl

theorem geom_forward_eq (sq : R → R) (cfg : ConvCfg R)
    (edges : List (Nat × Nat)) (pos : List (List R)) :
    EdgeConvGeom.forward sq cfg edges pos
      = propagateE cfg.msg_net.outW pos.length
          (fun e => .ok (EdgeConvGeom.message sq cfg (pos.getD e.1 []) (pos.getD e.2 [])))
          (fun _ a => cfg.aggr_net a) edges := rfl

end Lemmas

/-! ### Claim theorems -/

section Claims

variable {R : Type} [Field R]

theorem except_map_ok {α β : Type} (f : α → β) (a : α) :
    (Except.ok (ε := ConvError) a).map f = .ok (f a) := rfl

/-- A width-1 constant network over `ℚ`, used to instantiate theorems on
concrete inputs. -/
def constNet : Net ℚ := ⟨fun _ => [0], 1, fun _ => rfl⟩

/-- C1: `M3Model.forward(x, edge_index, pos)` returns exactly the value of
`ContextConv.apply(x, edge_index, pos, context)` where
`context = GeometricConv.apply(edge_index, pos)` — i.e. it is identical to
invoking the two layers manually in that sequence with the same inputs. -/
theorem M3Model_forward_composes (sq : R → R)
    (L1_msg_net : Net R) (L1_aggr_net : List R → List R)
    (L2_msg_net : Net R) (L2_aggr_net : List R → List R)
    (x : FeatTensor R) (edges : List (Nat × Nat)) (pos context : List (List R))
    (h : EdgeConvGeom.forward sq ⟨L1_msg_net, L1_aggr_net, ("position"), true⟩ edges pos
      = .ok context) :
    M3Model.forward sq L1_msg_net L1_aggr_net L2_msg_net L2_aggr_net x edges pos
      = EdgeConvWithCtx.forward sq ⟨L2_msg_net, L2_aggr_net, ("position"), true⟩
          x edges pos context := by
  rw [M3Model.forward, h]
  rfl

theorem M3Model_forward_composes_witness :
    EdgeConvGeom.forward (fun a : ℚ => a) ⟨constNet, fun v => v, ("position"), true⟩
        [] [] = .ok []
    ∧ M3Model.forward (fun a : ℚ => a) constNet (fun v => v) constNet (fun v => v)
        (FeatTensor.two []) [] []
      = EdgeConvWithCtx.forward (fun a : ℚ => a)
          ⟨constNet, fun v => v, ("position"), true⟩ (FeatTensor.two []) [] [] [] :=
  ⟨rfl, M3Model_forward_composes (fun a : ℚ => a) constNet (fun v => v) constNet
    (fun v => v) (FeatTensor.two []) [] [] [] rfl⟩

/-- C2: per edge (i→j) under the target_to_source flow convention, the
message input of `EdgeConvBase` is `[x_i, x_j, pos_j − pos_i]` in mode
"position", `[x_i, x_j, ‖pos_j − pos_i‖]` (one scalar column) in mode
"distance", and `[x_i, x_j, ‖Δ‖, atan2(Δ_1, Δ_0)]` with `Δ = pos_j − pos_i`
in mode "radial"; the message network is then applied to that vector. -/
theorem EdgeConvBase_message_contents (sq : R → R) (at2 : R → R → R)
    (msg_net : Net R) (aggr_net : List R → List R) (sv : Bool)
    (x_i x_j pos_i pos_j : List R) :
    EdgeConvBase.message sq at2 ⟨msg_net, aggr_net, ("position"), sv⟩ x_i x_j pos_i pos_j
      = .ok (msg_net.f (x_i ++ x_j ++ vsub pos_j pos_i))
    ∧ EdgeConvBase.message sq at2 ⟨msg_net, aggr_net, ("distance"), sv⟩ x_i x_j pos_i pos_j
      = .ok (msg_net.f (x_i ++ x_j ++ [vnorm sq (vsub pos_j pos_i)]))
    ∧ EdgeConvBase.message sq at2 ⟨msg_net, aggr_net, ("radial"), sv⟩ x_i x_j pos_i pos_j
      = .ok (msg_net.f (x_i ++ x_j ++ [vnorm sq (vsub pos_j pos_i),
          at2 ((vsub pos_j pos_i).getD 1 0) ((vsub pos_j pos_i).getD 0 0)])) := by
  refine ⟨?_, ?_, ?_⟩
  · rw [EdgeConvBase.message]
    rw [show (⟨msg_net, aggr_net, ("position"), sv⟩ : ConvCfg R).neighbor_loc
        = ("position") from rfl, msgInput_position]
    rfl
  · rw [EdgeConvBase.message]
    rw [show (⟨msg_net, aggr_net, ("distance"), sv⟩ : ConvCfg R).neighbor_loc
        = ("distance") from rfl, msgInput_distance]
    rfl
  · rw [EdgeConvBase.message]
    rw [show (⟨msg_net, aggr_net, ("radial"), sv⟩ : ConvCfg R).neighbor_loc
        = ("radial") from rfl, msgInput_radial]
    rfl

/-- C3: a convolution layer constructed with a neighbor-encoding mode
outside {"position", "distance", "radial"} fails with the
NameError/InvalidConfiguration error at message-computation time, and the
error propagates unrecovered out of `forward` whenever a message is
computed (edge list nonempty). -/
theorem EdgeConvBase_invalid_mode_error (sq : R → R) (at2 : R → R → R)
    (cfg : ConvCfg R) (x_i x_j pos_i pos_j : List R) (x : FeatTensor R)
    (edges : List (Nat × Nat)) (pos : List (List R))
    (hmode : cfg.neighbor_loc ∉ validModes) (hedges : edges ≠ []) :
    EdgeConvBase.message sq at2 cfg x_i x_j pos_i pos_j = .error .nameError
    ∧ EdgeConvBase.forward sq at2 cfg x edges pos = .error .nameError := by
  have hmsg : ∀ a b c d : List R,
      EdgeConvBase.message sq at2 cfg a b c d = .error .nameError := by
    intro a b c d
    rw [EdgeConvBase.message, msgInput_invalid sq at2 _ a b c d hmode]
    rfl
  refine ⟨hmsg x_i x_j pos_i pos_j, ?_⟩
  cases edges with
  | nil => exact absurd rfl hedges
  | cons e es =>
    rw [base_forward_eq, propagateE,
      collectMsgs_error_head _ e es .nameError (hmsg _ _ _ _)]
    rfl

theorem EdgeConvBase_invalid_mode_error_witness :
    (⟨constNet, fun v => v, ("diffusion"), true⟩ : ConvCfg ℚ).neighbor_loc ∉ validModes
    ∧ ([((0 : Nat), (0 : Nat))] : List (Nat × Nat)) ≠ []
    ∧ (EdgeConvBase.message (fun a : ℚ => a) (fun _ _ => 0)
          ⟨constNet, fun v => v, ("diffusion"), true⟩ [] [] [] [] = .error .nameError
      ∧ EdgeConvBase.forward (fun a : ℚ => a) (fun _ _ => 0)
          ⟨constNet, fun v => v, ("diffusion"), true⟩ (FeatTensor.two []) [(0, 0)] []
        = .error .nameError) :=
  ⟨by decide, by decide,
    EdgeConvBase_invalid_mode_error (fun a : ℚ => a) (fun _ _ => 0)
      ⟨constNet, fun v => v, ("diffusion"), true⟩ [] [] [] [] (FeatTensor.two [])
      [(0, 0)] [] (by decide) (by decide)⟩

/-- C4: for an edge whose endpoints coincide in position, the computed
inter-node distance is zero (given that the square root of zero is zero)
and the unit-direction normalization `(pos_j − pos_i) / distances` of both
`EdgeConvGeom.message` and `EdgeConvWithCtx.message` divides by that
unguarded zero denominator — no guard or clamp alters it. -/
theorem geom_zero_distance_division (sq : R → R) (pos_i pos_j : List R)
    (h0 : sq 0 = 0) (hpos : pos_i = pos_j) :
    EdgeConvGeom.distances sq pos_i pos_j = 0
    ∧ EdgeConvGeom.positions sq pos_i pos_j = (vsub pos_j pos_i).map (fun a => a / 0)
    ∧ EdgeConvWithCtx.distances sq pos_i pos_j = 0
    ∧ EdgeConvWithCtx.positions sq pos_i pos_j = (vsub pos_j pos_i).map (fun a => a / 0) := by
  subst hpos
  have hd : vnorm sq (vsub pos_i pos_i) = 0 := by rw [vnorm_vsub_self, h0]
  exact ⟨hd, by simp only [EdgeConvGeom.positions, EdgeConvGeom.distances, hd], hd,
    by simp only [EdgeConvWithCtx.positions, EdgeConvWithCtx.distances, hd]⟩

theorem geom_zero_distance_division_witness :
    (fun a : ℚ => a) 0 = 0
    ∧ ([(0 : ℚ), 0] : List ℚ) = [0, 0]
    ∧ (EdgeConvGeom.distances (fun a : ℚ => a) [0, 0] [0, 0] = 0
      ∧ EdgeConvGeom.positions (fun a : ℚ => a) [0, 0] [0, 0]
        = (vsub [0, 0] [0, 0]).map (fun a => a / 0)
      ∧ EdgeConvWithCtx.distances (fun a : ℚ => a) [0, 0] [0, 0] = 0
      ∧ EdgeConvWithCtx.positions (fun a : ℚ => a) [0, 0] [0, 0]
        = (vsub [0, 0] [0, 0]).map (fun a => a / 0)) :=
  ⟨rfl, rfl, geom_zero_distance_division (fun a : ℚ => a) [0, 0] [0, 0] rfl rfl⟩

end Claims

section ClaimsWidths

variable {R : Type} [Field R]

/-- C5 counterexample: with feature width F = 1, the "radial" message input
has width 4 = F × 2 + 2, not F × 2 + 3 = 5 as claimed; and with feature
width 2, setting the self-value flag enlarges the aggregation-network input
by 2 (the feature width), not by 1. -/
theorem msg_width_radial_counterexample :
    (EdgeConvBase.msgInput (fun a : ℚ => a) (fun _ _ => 0) ("radial")
      [0] [0] [0, 0] [1, 0]).map List.length = .ok 4
    ∧ (4 : Nat) ≠ 1 * 2 + 3
    ∧ (EdgeConvBase.updateInput true [(0 : ℚ)] [0, 0]).length
      = (EdgeConvBase.updateInput false [(0 : ℚ)] [0, 0]).length + 2
    ∧ (2 : Nat) ≠ 1 := by
  refine ⟨?_, by decide, by decide, by decide⟩
  rw [msgInput_radial]
  rfl

/-- C5 (amended): for feature width F and position dimension D, the
message-network input width is F × 2 + 1 in mode "distance", F × 2 + D in
mode "position" (so F × 2 + 2 for the 2-D positions the spec assumes), and
F × 2 + 2 in mode "radial"; the aggregation-network input is larger by F
(the feature width) when the self-value flag is set than when it is not. -/
theorem msg_input_widths (sq : R → R) (at2 : R → R → R) (F D : Nat)
    (x_i x_j pos_i pos_j : List R)
    (hxi : x_i.length = F) (hxj : x_j.length = F)
    (hpi : pos_i.length = D) (hpj : pos_j.length = D) :
    (EdgeConvBase.msgInput sq at2 ("distance") x_i x_j pos_i pos_j).map List.length
      = .ok (F * 2 + 1)
    ∧ (EdgeConvBase.msgInput sq at2 ("position") x_i x_j pos_i pos_j).map List.length
      = .ok (F * 2 + D)
    ∧ (EdgeConvBase.msgInput sq at2 ("radial") x_i x_j pos_i pos_j).map List.length
      = .ok (F * 2 + 2)
    ∧ ∀ aggr_out : List R,
        (EdgeConvBase.updateInput true aggr_out x_i).length
          = (EdgeConvBase.updateInput false aggr_out x_i).length + F := by
  have hv : (vsub pos_j pos_i).length = D := by
    simp [vsub, hpi, hpj]
  refine ⟨?_, ?_, ?_, fun aggr_out => ?_⟩
  · rw [msgInput_distance, except_map_ok]
    simp only [List.length_append, List.length_cons, List.length_nil, hxi, hxj,
      Except.ok.injEq]
    omega
  · rw [msgInput_position, except_map_ok]
    simp only [List.length_append, hxi, hxj, hv, Except.ok.injEq]
    omega
  · rw [msgInput_radial, except_map_ok]
    simp only [List.length_append, List.length_cons, List.length_nil, hxi, hxj,
      Except.ok.injEq]
    omega
  · simp [EdgeConvBase.updateInput, hxi]
    omega

theorem msg_input_widths_witness :
    ([(1 : ℚ)] : List ℚ).length = 1
    ∧ ([(2 : ℚ)] : List ℚ).length = 1
    ∧ ([(0 : ℚ), 0] : List ℚ).length = 2
    ∧ ([(1 : ℚ), 0] : List ℚ).length = 2
    ∧ ((EdgeConvBase.msgInput (fun a : ℚ => a) (fun _ _ => 0) ("distance")
          [1] [2] [0, 0] [1, 0]).map List.length = .ok (1 * 2 + 1)
      ∧ (EdgeConvBase.msgInput (fun a : ℚ => a) (fun _ _ => 0) ("position")
          [1] [2] [0, 0] [1, 0]).map List.length = .ok (1 * 2 + 2)
      ∧ (EdgeConvBase.msgInput (fun a : ℚ => a) (fun _ _ => 0) ("radial")
          [1] [2] [0, 0] [1, 0]).map List.length = .ok (1 * 2 + 2)
      ∧ ∀ aggr_out : List ℚ,
          (EdgeConvBase.updateInput true aggr_out [(1 : ℚ)]).length
            = (EdgeConvBase.updateInput false aggr_out [(1 : ℚ)]).length + 1) :=
  ⟨rfl, rfl, rfl, rfl,
    msg_input_widths (fun a : ℚ => a) (fun _ _ => 0) 1 2 [1] [2] [0, 0] [1, 0]
      rfl rfl rfl rfl⟩

/-- C6: for a valid neighbor-encoding mode, `EdgeConvBase.forward` succeeds
with exactly one output row per node (N = number of node-feature rows after
the 1-D reshape), and its output is invariant under any permutation of the
edge list — the scatter-mean reduction is commutative. -/
theorem conv_output_rows_and_perm_invariant (sq : R → R) (at2 : R → R → R)
    (cfg : ConvCfg R) (x : FeatTensor R) (pos : List (List R))
    (edges edges' : List (Nat × Nat))
    (hmode : cfg.neighbor_loc ∈ validModes) (hperm : edges.Perm edges') :
    (EdgeConvBase.forward sq at2 cfg x edges pos).map List.length
      = .ok (reshape1d x).length
    ∧ EdgeConvBase.forward sq at2 cfg x edges' pos
      = EdgeConvBase.forward sq at2 cfg x edges pos := by
  obtain ⟨g, hg⟩ : ∃ g : Nat × Nat → List R, ∀ e : Nat × Nat,
      EdgeConvBase.message sq at2 cfg ((reshape1d x).getD e.1 [])
        ((reshape1d x).getD e.2 []) (pos.getD e.1 []) (pos.getD e.2 [])
      = .ok (g e) := by
    simp only [validModes, List.mem_cons, List.not_mem_nil, or_false] at hmode
    rcases hmode with h | h | h
    · refine ⟨fun e => cfg.msg_net.f ((reshape1d x).getD e.1 []
        ++ (reshape1d x).getD e.2 []
        ++ vsub (pos.getD e.2 []) (pos.getD e.1 [])), fun e => ?_⟩
      rw [EdgeConvBase.message, h, msgInput_position]
      rfl
    · refine ⟨fun e => cfg.msg_net.f ((reshape1d x).getD e.1 []
        ++ (reshape1d x).getD e.2 []
        ++ [vnorm sq (vsub (pos.getD e.2 []) (pos.getD e.1 []))]), fun e => ?_⟩
      rw [EdgeConvBase.message, h, msgInput_distance]
      rfl
    · refine ⟨fun e => cfg.msg_net.f ((reshape1d x).getD e.1 []
        ++ (reshape1d x).getD e.2 []
        ++ [vnorm sq (vsub (pos.getD e.2 []) (pos.getD e.1 [])),
          at2 ((vsub (pos.getD e.2 []) (pos.getD e.1 [])).getD 1 0)
            ((vsub (pos.getD e.2 []) (pos.getD e.1 [])).getD 0 0)]), fun e => ?_⟩
      rw [EdgeConvBase.message, h, msgInput_radial]
      rfl
  constructor
  · rw [base_forward_eq, propagateE_ok _ _ _ g _ edges hg, except_map_ok]
    simp
  · rw [base_forward_eq, base_forward_eq]
    exact propagateE_perm _ _ _ g _ edges edges' hg hperm

theorem conv_output_rows_and_perm_invariant_witness :
    (⟨constNet, fun v => v, ("position"), true⟩ : ConvCfg ℚ).neighbor_loc ∈ validModes
    ∧ ([((0 : Nat), (1 : Nat)), (1, 0)] : List (Nat × Nat)).Perm [(1, 0), (0, 1)]
    ∧ ((EdgeConvBase.forward (fun a : ℚ => a) (fun _ _ => 0)
          ⟨constNet, fun v => v, ("position"), true⟩ (FeatTensor.two [[1], [2]])
          [(0, 1), (1, 0)] [[0, 0], [1, 0]]).map List.length = .ok 2
      ∧ EdgeConvBase.forward (fun a : ℚ => a) (fun _ _ => 0)
          ⟨constNet, fun v => v, ("position"), true⟩ (FeatTensor.two [[1], [2]])
          [(1, 0), (0, 1)] [[0, 0], [1, 0]]
        = EdgeConvBase.forward (fun a : ℚ => a) (fun _ _ => 0)
            ⟨constNet, fun v => v, ("position"), true⟩ (FeatTensor.two [[1], [2]])
            [(0, 1), (1, 0)] [[0, 0], [1, 0]]) :=
  ⟨by decide, by decide,
    conv_output_rows_and_perm_invariant (fun a : ℚ => a) (fun _ _ => 0)
      ⟨constNet, fun v => v, ("position"), true⟩ (FeatTensor.two [[1], [2]])
      [[0, 0], [1, 0]] [(0, 1), (1, 0)] [(1, 0), (0, 1)] (by decide) (by decide)⟩

end ClaimsWidths

section ClaimsVariants

variable {R : Type} [Field R]

/-- C7: `EdgeConvWithCtx` builds its per-edge message input as the
concatenation `[x_i, x_j − x_i, distance, unit_direction, ctx_i]` and
applies the message network to it; its update applies the aggregation
network to `[aggr_out, ctx]` with the context row of the node being
updated; and `forward` feeds each edge the context row of the first-listed
(source/aggregating) endpoint `e.1` and each update the context row of the
node `n` being updated. -/
theorem EdgeConvWithCtx_message_update_contents (sq : R → R) (cfg : ConvCfg R)
    (x_i x_j pos_i pos_j ctx_i aggr_out xn posn ctxn : List R)
    (x : FeatTensor R) (edges : List (Nat × Nat)) (pos ctx : List (List R)) :
    EdgeConvWithCtx.message sq cfg x_i x_j pos_i pos_j ctx_i
      = cfg.msg_net.f (x_i ++ vsub x_j x_i
          ++ vnorm sq (vsub pos_j pos_i)
            :: ((vsub pos_j pos_i).map fun a => a / vnorm sq (vsub pos_j pos_i))
          ++ ctx_i)
    ∧ EdgeConvWithCtx.update cfg aggr_out xn posn ctxn = cfg.aggr_net (aggr_out ++ ctxn)
    ∧ EdgeConvWithCtx.forward sq cfg x edges pos ctx
      = propagateE cfg.msg_net.outW (reshape1d x).length
          (fun e => .ok (EdgeConvWithCtx.message sq cfg
            ((reshape1d x).getD e.1 []) ((reshape1d x).getD e.2 [])
            (pos.getD e.1 []) (pos.getD e.2 []) (ctx.getD e.1 [])))
          (fun n a => EdgeConvWithCtx.update cfg a ((reshape1d x).getD n [])
            (pos.getD n []) (ctx.getD n [])) edges :=
  ⟨rfl, rfl, rfl⟩

/-- C8: a flat 1-D feature input of N entries is reshaped to an N×1 tensor
(each entry a length-1 row) before any message computation, and a dim-2
input is processed unchanged — for both `EdgeConvBase.forward` and
`EdgeConvWithCtx.forward`. -/
theorem forward_reshapes_1d (sq : R → R) (at2 : R → R → R) (cfg : ConvCfg R)
    (v : List R) (m : List (List R)) (edges : List (Nat × Nat))
    (pos ctx : List (List R)) :
    reshape1d (FeatTensor.one v) = v.map (fun a => [a])
    ∧ reshape1d (FeatTensor.two m) = m
    ∧ EdgeConvBase.forward sq at2 cfg (FeatTensor.one v) edges pos
      = EdgeConvBase.forward sq at2 cfg (FeatTensor.two (v.map fun a => [a])) edges pos
    ∧ EdgeConvWithCtx.forward sq cfg (FeatTensor.one v) edges pos ctx
      = EdgeConvWithCtx.forward sq cfg (FeatTensor.two (v.map fun a => [a])) edges pos ctx :=
  ⟨rfl, rfl, rfl, rfl⟩

/-- C9: two `EdgeConvWithCtx` layers sharing the same message and
aggregation networks but differing only in the inherited `self_val` flag
produce identical outputs on every input, and `EdgeConvWithCtx.update`
ignores its feature and position arguments. -/
theorem ctx_self_val_irrelevant (sq : R → R) (msg_net : Net R)
    (aggr_net : List R → List R) (mode : String)
    (x : FeatTensor R) (edges : List (Nat × Nat)) (pos ctx : List (List R))
    (a xu pu cu xu' pu' : List R) :
    EdgeConvWithCtx.forward sq ⟨msg_net, aggr_net, mode, true⟩ x edges pos ctx
      = EdgeConvWithCtx.forward sq ⟨msg_net, aggr_net, mode, false⟩ x edges pos ctx
    ∧ EdgeConvWithCtx.update ⟨msg_net, aggr_net, mode, true⟩ a xu pu cu
      = EdgeConvWithCtx.update ⟨msg_net, aggr_net, mode, false⟩ a xu' pu' cu :=
  ⟨rfl, rfl⟩

/-- C10: `EdgeConvGeom.forward` never raises the unrecognized-mode error —
for any stored mode, valid or not, it returns a normal `Except.ok` result —
and its output does not depend on the `neighbor_loc` and `self_val` it was
constructed with, because its overriding message never consults them. -/
theorem geom_mode_independent (sq : R → R) (msg_net : Net R)
    (aggr_net : List R → List R) (mode : String) (sv : Bool)
    (edges : List (Nat × Nat)) (pos : List (List R)) :
    (∃ out, EdgeConvGeom.forward sq ⟨msg_net, aggr_net, mode, sv⟩ edges pos
      = .ok out)
    ∧ EdgeConvGeom.forward sq ⟨msg_net, aggr_net, mode, sv⟩ edges pos
      = EdgeConvGeom.forward sq ⟨msg_net, aggr_net, ("position"), true⟩ edges pos := by
  constructor
  · rw [geom_forward_eq]
    exact ⟨_, propagateE_ok _ _ _
      (fun e => EdgeConvGeom.message sq ⟨msg_net, aggr_net, mode, sv⟩
        (pos.getD e.1 []) (pos.getD e.2 [])) _ edges (fun e => rfl)⟩
  · rfl

end ClaimsVariants
